import Mathlib

/-!
# Verification of the URL-shortener core (main.go / bot.go)

A shallow embedding of the short-code mapping store of this repository:
the in-memory `urls` map, the random code generator, the `save`/`load`
persistence pair (JSON snapshot with atomic rename), the `shorten`
operation and the HTTP/bot entry points, each translated directly from
the Go source in `main.go` and `bot.go`.

Modelling conventions:
* Go strings are sequences of runes, embedded as `List Char` (`GoStr`).
* `map[string]string` is embedded as an association list with Go's
  assignment semantics (`mapAssign` replaces in place or appends).
  Go's map has no iteration order; `encoding/json` serializes map keys
  in sorted order, while the model serializes in association-list
  order — this affects only the byte-level ordering of entries in the
  snapshot, not which mapping the snapshot denotes.
* The `math/rand` stream is embedded as a function `Nat → Fin 62`
  giving the successive results of `rand.Intn(len(letters))`.
* The file system is a partial map from file names to contents; the
  fallible `os.Create` / write / `os.Rename` steps of `save` are
  driven by an explicit environment of failure switches.
* `shorten`'s unbounded collision-retry loop is embedded with explicit
  fuel; `none` means the loop did not finish within the given fuel.
-/

/-- A Go string: a sequence of runes. -/
abbrev GoStr := List Char

/-- `const dbFile = "urls.json"`. -/
def dbFile : GoStr := "urls.json".data

/-- `const baseURL = "http://localhost:8080/"`. -/
def baseURL : GoStr := "http://localhost:8080/".data

/-- `const codeLength = 6`. -/
def codeLength : Nat := 6

/-- The in-memory `urls map[string]string`, embedded as an association
list from code to target. -/
abbrev Mapping := List (GoStr × GoStr)

/-- Go map read `m[k]`: the value stored at `k`, if any. -/
def mapGet (m : Mapping) (k : GoStr) : Option GoStr :=
  match m with
  | [] => none
  | (k', v) :: rest => if k' = k then some v else mapGet rest k

/-- Go map write `m[k] = v`: replace the value at an existing key in
place, otherwise add the new entry. -/
def mapAssign (m : Mapping) (k v : GoStr) : Mapping :=
  match m with
  | [] => [(k, v)]
  | (k', v') :: rest => if k' = k then (k', v) :: rest else (k', v') :: mapAssign rest k v

/-- The keys of a mapping. -/
def mapKeys (m : Mapping) : List GoStr := m.map Prod.fst

/-- `letters` from `generateCode`: the 62-symbol alphanumeric alphabet. -/
def letters : GoStr := "abcdefghijklmnopqrstuvwxyzABCDEFGHIJKLMNOPQRSTUVWXYZ0123456789".data

/-- `letters[rand.Intn(len(letters))]` for one draw of the stream. -/
def letterAt (d : Fin 62) : Char :=
  letters.get (Fin.cast (by decide : (62 : Nat) = letters.length) d)

/-- `generateCode()` when the `rand.Intn` stream is `σ` and the next
unconsumed draw is `σ k`: six successive draws indexed into `letters`. -/
def generateCode (σ : Nat → Fin 62) (k : Nat) : GoStr :=
  (List.range codeLength).map (fun j => letterAt (σ (k + j)))

/-- The file system visible to `save`/`load`: file name to contents. -/
def FS : Type := GoStr → Option GoStr

/-- Create or truncate-and-write a file. -/
def setFile (fs : FS) (n d : GoStr) : FS :=
  fun n' => if n' = n then some d else fs n'

/-- `os.Rename(src, dst)`: atomically replace `dst` by `src`. -/
def renameFile (fs : FS) (src dst : GoStr) : FS :=
  fun n' => if n' = src then none else if n' = dst then fs src else fs n'

/-- The temp file `dbFile + ".tmp"` used by `save`. -/
def tmpFile : GoStr := dbFile ++ ".tmp".data

/-- The errors `save` can surface. -/
inductive SaveErr
  | createFailed
  | writeFailed
  | renameFailed
deriving DecidableEq, Repr

/-- Failure switches for one run of `save`: whether `os.Create`, the
encoder's write and `os.Rename` succeed, and the truncated bytes left
in the temp file when the write fails midway. -/
structure SaveEnv where
  createOk : Bool
  writeOk : Bool
  renameOk : Bool
  failData : GoStr

/-- An all-success environment. -/
def envOK : SaveEnv := ⟨true, true, true, []⟩

/-! ## The JSON snapshot format

`save` runs `encoding/json`'s `Encoder` with `SetIndent("", "  ")` on
`urls`; `load` runs `Decoder.Decode(&urls)`.  The encoder and decoder
below embed the fragment of `encoding/json` those calls exercise: an
object whose keys and values are strings, with Go's string escaping
(HTML escaping on, as by default). -/

/-- The lowercase hex digit for `d < 16`, as `encoding/json` emits in
`\u00xx` escapes. -/
def hexDigitChar (d : Nat) : Char :=
  if d < 10 then Char.ofNat ('0'.toNat + d) else Char.ofNat ('a'.toNat + (d - 10))

/-- The four hex digits of `n < 0x10000`. -/
def hex4 (n : Nat) : GoStr :=
  [hexDigitChar (n / 4096), hexDigitChar (n / 256 % 16),
   hexDigitChar (n / 16 % 16), hexDigitChar (n % 16)]

/-- Go's JSON string escaping of one rune (`encoding/json`, HTML
escaping enabled): `"` `\` and the named control escapes get two-byte
escapes, other control runes and `<` `>` `&` U+2028 U+2029 get `\u`
escapes, everything else is emitted verbatim. -/
def escapeChar (c : Char) : GoStr :=
  if c = '"' then ['\\', '"']
  else if c = '\\' then ['\\', '\\']
  else if c = '\n' then ['\\', 'n']
  else if c = '\r' then ['\\', 'r']
  else if c = '\t' then ['\\', 't']
  else if c.toNat < 32 then '\\' :: 'u' :: hex4 c.toNat
  else if c = '<' then '\\' :: 'u' :: hex4 60
  else if c = '>' then '\\' :: 'u' :: hex4 62
  else if c = '&' then '\\' :: 'u' :: hex4 38
  else if c.toNat = 8232 then '\\' :: 'u' :: hex4 8232
  else if c.toNat = 8233 then '\\' :: 'u' :: hex4 8233
  else [c]

/-- The escaped body of a JSON string. -/
def escapeStr (s : GoStr) : GoStr :=
  match s with
  | [] => []
  | c :: rest => escapeChar c ++ escapeStr rest

/-- A quoted JSON string literal. -/
def quoteStr (s : GoStr) : GoStr :=
  '"' :: (escapeStr s ++ ['"'])

/-- One indented `"code": "target"` member line, as the encoder with
indent prefix `""` and step `"  "` lays it out. -/
def encodeEntry (k v : GoStr) : GoStr :=
  ' ' :: ' ' :: (quoteStr k ++ ':' :: ' ' :: quoteStr v)

/-- The member lines of a non-empty object, separated by `",\n"`. -/
def encodeEntries (m : Mapping) : GoStr :=
  match m with
  | [] => []
  | [(k, v)] => encodeEntry k v
  | (k, v) :: rest => encodeEntry k v ++ ',' :: '\n' :: encodeEntries rest

/-- The bytes `Encoder.Encode(urls)` writes for the mapping `m`: the
pretty-indented object followed by the encoder's trailing newline. -/
def encodeSnapshot (m : Mapping) : GoStr :=
  match m with
  | [] => '{' :: '}' :: '\n' :: []
  | _ => '{' :: '\n' :: (encodeEntries m ++ '\n' :: '}' :: '\n' :: [])

/-! ### The decoder -/

/-- JSON insignificant whitespace, as Go's scanner accepts. -/
def isJsonWs (c : Char) : Bool :=
  c = ' ' ∨ c = '\t' ∨ c = '\n' ∨ c = '\r'

/-- Drop leading insignificant whitespace. -/
def skipWs (s : GoStr) : GoStr :=
  match s with
  | [] => []
  | c :: rest => if isJsonWs c then skipWs rest else c :: rest

/-- The value of one hex digit, either case. -/
def hexVal (c : Char) : Option Nat :=
  if '0'.toNat ≤ c.toNat ∧ c.toNat ≤ '9'.toNat then some (c.toNat - '0'.toNat)
  else if 'a'.toNat ≤ c.toNat ∧ c.toNat ≤ 'f'.toNat then some (c.toNat - 'a'.toNat + 10)
  else if 'A'.toNat ≤ c.toNat ∧ c.toNat ≤ 'F'.toNat then some (c.toNat - 'A'.toNat + 10)
  else none

/-- The rune denoted by a single-character escape `\c`. -/
def unescapeChar (c : Char) : Option Char :=
  if c = '"' then some '"'
  else if c = '\\' then some '\\'
  else if c = '/' then some '/'
  else if c = 'b' then some (Char.ofNat 8)
  else if c = 'f' then some (Char.ofNat 12)
  else if c = 'n' then some '\n'
  else if c = 'r' then some '\r'
  else if c = 't' then some '\t'
  else none

/-- Parse the body of a JSON string up to its closing quote, returning
the decoded runes and the unconsumed tail.  Control runes below 0x20
are rejected, as in Go's scanner. -/
def parseStrBody : GoStr → Option (GoStr × GoStr)
  | [] => none
  | c :: rest =>
    if c = '"' then some ([], rest)
    else if c = '\\' then
      match rest with
      | [] => none
      | e :: rest2 =>
        if e = 'u' then
          match rest2 with
          | h1 :: h2 :: h3 :: h4 :: rest3 =>
            match hexVal h1, hexVal h2, hexVal h3, hexVal h4 with
            | some a, some b, some c2, some d =>
              let n := ((a * 16 + b) * 16 + c2) * 16 + d
              if Nat.isValidChar n then
                match parseStrBody rest3 with
                | some (s, r) => some (Char.ofNat n :: s, r)
                | none => none
              else none
            | _, _, _, _ => none
          | _ => none
        else
          match unescapeChar e with
          | some u2 =>
            match parseStrBody rest2 with
            | some (s, r) => some (u2 :: s, r)
            | none => none
          | none => none
    else if c.toNat < 32 then none
    else
      match parseStrBody rest with
      | some (s, r) => some (c :: s, r)
      | none => none

/-- Parse a quoted JSON string. -/
def parseJStr (s : GoStr) : Option (GoStr × GoStr) :=
  match s with
  | [] => none
  | c :: rest => if c = '"' then parseStrBody rest else none

/-- Parse the members of a non-empty object, positioned after the `{`
(or after a separating `,`), through the closing `}`.  `fuel` bounds
the recursion; one unit is consumed per member. -/
def parseMembers : Nat → GoStr → Option (Mapping × GoStr)
  | 0, _ => none
  | fuel + 1, s =>
    match parseJStr (skipWs s) with
    | none => none
    | some (k, s1) =>
      match skipWs s1 with
      | ':' :: s2 =>
        match parseJStr (skipWs s2) with
        | none => none
        | some (v, s3) =>
          match skipWs s3 with
          | ',' :: s4 =>
            match parseMembers fuel s4 with
            | some (ps, r) => some ((k, v) :: ps, r)
            | none => none
          | '}' :: s4 => some ([(k, v)], s4)
          | _ => none
      | _ => none

/-- Parse one JSON object of strings off the front of the input, as
`Decoder.Decode` reads one value from its stream (trailing data is the
stream's concern, not the decoded value's).  Returns the member list
in source order. -/
def parseSnapshot (s : GoStr) : Option Mapping :=
  match skipWs s with
  | '{' :: rest =>
    match skipWs rest with
    | '}' :: _ => some []
    | _ =>
      match parseMembers (rest.length + 1) rest with
      | some (ps, _) => some ps
      | none => none
  | _ => none

/-! ## load -/

/-- The outcome of `os.Open(dbFile)` at the start of `load`: the file
is absent (`os.IsNotExist`), opening fails for another reason, or the
file opens with the given contents. -/
inductive OpenResult
  | missing
  | openFail
  | content (data : GoStr)

/-- The errors `load` can surface. -/
inductive LoadErr
  | openFailed
  | decodeFailed
deriving DecidableEq, Repr

/-- Decode parsed members into the `urls` map the way
`Decoder.Decode(&urls)` assigns them: one `m[k] = v` per member in
source order, into the map `init` (empty at `init()` time). -/
def decodeInto (init : Mapping) (ps : Mapping) : Mapping :=
  ps.foldl (fun acc p => mapAssign acc p.1 p.2) init

/-- `load()`: a missing file is not an error and leaves `urls` as it
was (empty); any other open failure is surfaced; otherwise the file is
JSON-decoded into `urls`. -/
def load (init : Mapping) (r : OpenResult) : Except LoadErr Mapping :=
  match r with
  | .missing => .ok init
  | .openFail => .error .openFailed
  | .content data =>
    match parseSnapshot data with
    | some ps => .ok (decodeInto init ps)
    | none => .error .decodeFailed

/-! ## save -/

/-- `save()`: create `dbFile + ".tmp"`, encode the whole mapping into
it pretty-indented, close it, and only then rename it over `dbFile`.
Returns the error and the resulting file system. -/
def save (env : SaveEnv) (fs : FS) (m : Mapping) : Except SaveErr Unit × FS :=
  if env.createOk = false then (.error .createFailed, fs)
  else
    let fs1 := setFile fs tmpFile []
    if env.writeOk = false then (.error .writeFailed, setFile fs1 tmpFile env.failData)
    else
      let fs2 := setFile fs1 tmpFile (encodeSnapshot m)
      if env.renameOk = false then (.error .renameFailed, fs2)
      else (.ok (), renameFile fs2 tmpFile dbFile)

/-- The successive file-system states a run of `save` passes through,
initial state first, final state last. -/
def saveTrace (env : SaveEnv) (fs : FS) (m : Mapping) : List FS :=
  if env.createOk = false then [fs]
  else
    let fs1 := setFile fs tmpFile []
    if env.writeOk = false then [fs, fs1, setFile fs1 tmpFile env.failData]
    else
      let fs2 := setFile fs1 tmpFile (encodeSnapshot m)
      if env.renameOk = false then [fs, fs1, fs2]
      else [fs, fs1, fs2, renameFile fs2 tmpFile dbFile]

/-! ## shorten -/

/-- `shorten(u)`: generate codes until one is not yet in `urls`, store
`urls[code] = u`, persist with `save`, and return `baseURL + code`; on
a `save` error return the error (the inserted entry is not removed).
`fuel` bounds the collision-retry loop, `k` is the position in the
random stream; `none` means the loop did not finish within `fuel`.
The result carries the final `urls` map and file system. -/
def shortenLoop (σ : Nat → Fin 62) (env : SaveEnv) (u : GoStr) :
    Nat → Nat → Mapping → FS → Option (Except SaveErr GoStr × Mapping × FS)
  | 0, _, _, _ => none
  | fuel + 1, k, m, fs =>
    let code := generateCode σ k
    match mapGet m code with
    | some _ => shortenLoop σ env u fuel (k + codeLength) m fs
    | none =>
      let m' := mapAssign m code u
      match save env fs m' with
      | (.error e, fs') => some (.error e, m', fs')
      | (.ok _, fs') => some (.ok (baseURL ++ code), m', fs')

/-- `shortenLoop` with the file system dropped, for stating concrete
outcomes (the file system is a function and has no decidable
equality). -/
def shortenRun (σ : Nat → Fin 62) (env : SaveEnv) (u : GoStr)
    (fuel k : Nat) (m : Mapping) (fs : FS) : Option (Except SaveErr GoStr × Mapping) :=
  (shortenLoop σ env u fuel k m fs).map (fun r => (r.1, r.2.1))

/-! ## HTTP handlers and bot handler -/

/-- What `redirectHandler` does with a request: redirect with HTTP
status 302 (`http.StatusFound`), or reply 404 (`http.NotFound`). -/
inductive RedirectOutcome
  | redirect (target : GoStr) (status : Nat)
  | notFound (status : Nat)
deriving DecidableEq, Repr

/-- `redirectHandler`: `code := r.URL.Path[1:]`, then a lookup in
`urls` decides between the 302 redirect and the 404. -/
def redirectHandler (path : GoStr) (m : Mapping) : RedirectOutcome :=
  let code := path.drop 1
  match mapGet m code with
  | some dest => .redirect dest 302
  | none => .notFound 404

/-- What `shortenHandler` replies. -/
inductive ShortenOutcome
  | methodNotAllowed
  | badRequest
  | serverError
  | created (shortURL : GoStr)
deriving DecidableEq, Repr

/-- The `url` field of the decoded request struct: decoding a JSON
object into `struct { URL string }` takes the last `"url"` member and
leaves the zero value `""` when none is present. -/
def urlField (ps : Mapping) : GoStr :=
  (mapGet (decodeInto [] ps) "url".data).getD []

/-- `shortenHandler`: POST only, JSON-decode the body, pass the `url`
field to `shorten` unvalidated, reply 500 on error and the short URL
on success. -/
def shortenHandler (σ : Nat → Fin 62) (env : SaveEnv) (fuel k : Nat)
    (isPost : Bool) (body : GoStr) (m : Mapping) (fs : FS) :
    Option (ShortenOutcome × Mapping × FS) :=
  if isPost = false then some (.methodNotAllowed, m, fs)
  else
    match parseSnapshot body with
    | none => some (.badRequest, m, fs)
    | some ps =>
      match shortenLoop σ env (urlField ps) fuel k m fs with
      | none => none
      | some (.error _, m', fs') => some (.serverError, m', fs')
      | some (.ok s, m', fs') => some (.created s, m', fs')

/-- `const` command marker `"!shorten "` of `bot.go`. -/
def botCmd : GoStr := "!shorten ".data

/-- What `messageCreate` does with a message. -/
inductive BotOutcome
  | ignored
  | usageReply
  | failReply
  | shortReply (shortURL : GoStr)
deriving DecidableEq, Repr

/-- `strings.TrimSpace`, on runes. -/
def trimSpace (s : GoStr) : GoStr :=
  ((s.dropWhile Char.isWhitespace).reverse.dropWhile Char.isWhitespace).reverse

/-- `messageCreate` of `bot.go`: ignore own messages and messages
without the command marker; trim the remainder; an empty URL gets the
usage reply without calling `shorten`; otherwise call `shorten` and
reply with the failure message or the short URL. -/
def messageCreate (σ : Nat → Fin 62) (env : SaveEnv) (fuel k : Nat)
    (authorIsSelf : Bool) (content : GoStr) (m : Mapping) (fs : FS) :
    Option (BotOutcome × Mapping × FS) :=
  if authorIsSelf then some (.ignored, m, fs)
  else if botCmd.isPrefixOf content then
    let longURL := trimSpace (content.drop botCmd.length)
    if longURL = [] then some (.usageReply, m, fs)
    else
      match shortenLoop σ env longURL fuel k m fs with
      | none => none
      | some (.error _, m', fs') => some (.failReply, m', fs')
      | some (.ok s, m', fs') => some (.shortReply s, m', fs')
  else some (.ignored, m, fs)

/-! ## Concrete scenario values, for closed instances of the claims -/

/-- A random stream that always draws index 0, so every generated code
is `"aaaaaa"`. -/
def sigma0 : Nat → Fin 62 := fun _ => ⟨0, by decide⟩

/-- An empty disk. -/
def fs0 : FS := fun _ => none

/-- An environment whose `os.Rename` fails. -/
def envRenameFail : SaveEnv := ⟨true, true, false, []⟩

/-- An environment whose `os.Create` fails. -/
def envCreateFail : SaveEnv := ⟨false, true, true, []⟩

/-- The code the constant stream produces. -/
def code0 : GoStr := "aaaaaa".data

/-- A one-entry demonstration mapping. -/
def demoMap : Mapping := [("ab".data, "cd".data)]

/-- A request body `{"url": ""}`, written out as runes. -/
def emptyUrlBody : GoStr :=
  '{' :: '"' :: 'u' :: 'r' :: 'l' :: '"' :: ':' :: ' ' :: '"' :: '"' :: '}' :: []

/-- A bot message that is the bare command marker followed by spaces. -/
def bareCmdMsg : GoStr := "!shorten   ".data

/-! ## Lemmas: the snapshot codec round-trips -/

theorem char_toNat_isValidChar (c : Char) : Nat.isValidChar c.toNat := by
  have h := c.valid
  unfold UInt32.isValidChar at h
  exact h

theorem hexVal_hexDigitChar (n : Nat) (h : n < 16) :
    hexVal (hexDigitChar n) = some n := by
  have key : ∀ i : Fin 16, hexVal (hexDigitChar i.val) = some i.val := by decide
  exact key ⟨n, h⟩

theorem parseStrBody_hexEsc (t : Nat) (hv : Nat.isValidChar t) (hlt : t < 65536)
    (tail s r : GoStr) (htail : parseStrBody tail = some (s, r)) :
    parseStrBody ('\\' :: 'u' :: (hex4 t ++ tail)) = some (Char.ofNat t :: s, r) := by
  have h1 : t / 4096 < 16 := by omega
  have h2 : t / 256 % 16 < 16 := by omega
  have h3 : t / 16 % 16 < 16 := by omega
  have h4 : t % 16 < 16 := by omega
  have hre : ((t / 4096 * 16 + t / 256 % 16) * 16 + t / 16 % 16) * 16 + t % 16 = t := by
    omega
  rw [parseStrBody.eq_def]
  simp only [hex4, List.cons_append, List.nil_append,
    hexVal_hexDigitChar _ h1, hexVal_hexDigitChar _ h2, hexVal_hexDigitChar _ h3,
    hexVal_hexDigitChar _ h4, hre]
  simp [hv, htail]

theorem parseStrBody_twoEsc (e u : Char) (hu : unescapeChar e = some u)
    (tail s r : GoStr) (htail : parseStrBody tail = some (s, r)) :
    parseStrBody ('\\' :: e :: tail) = some (u :: s, r) := by
  have he : ¬ e = 'u' := by
    intro h
    subst h
    simp [unescapeChar] at hu
  rw [parseStrBody.eq_def]
  simp [he, hu, htail]

theorem parseStrBody_plain (c : Char) (h1 : ¬ c = '"') (h2 : ¬ c = '\\')
    (h3 : ¬ c.toNat < 32) (tail s r : GoStr) (htail : parseStrBody tail = some (s, r)) :
    parseStrBody (c :: tail) = some (c :: s, r) := by
  rw [parseStrBody.eq_def]
  simp [h1, h2, h3, htail]

/-- Round-trip of the string escaper: parsing the escaped body up to
the closing quote recovers the original runes and the tail. -/
theorem parseStrBody_escape (s rest : GoStr) :
    parseStrBody (escapeStr s ++ '"' :: rest) = some (s, rest) := by
  induction s with
  | nil =>
    show parseStrBody ([] ++ '"' :: rest) = _
    rw [List.nil_append, parseStrBody.eq_def]
    simp
  | cons c s' IH =>
    show parseStrBody ((escapeChar c ++ escapeStr s') ++ '"' :: rest) = _
    rw [List.append_assoc]
    by_cases hq : c = '"'
    · subst hq
      simpa [escapeChar] using parseStrBody_twoEsc '"' '"' (by decide) _ _ _ IH
    by_cases hb : c = '\\'
    · subst hb
      simpa [escapeChar] using parseStrBody_twoEsc '\\' '\\' (by decide) _ _ _ IH
    by_cases hn : c = '\n'
    · subst hn
      simpa [escapeChar] using parseStrBody_twoEsc 'n' '\n' (by decide) _ _ _ IH
    by_cases hr : c = '\r'
    · subst hr
      simpa [escapeChar] using parseStrBody_twoEsc 'r' '\r' (by decide) _ _ _ IH
    by_cases ht : c = '\t'
    · subst ht
      simpa [escapeChar] using parseStrBody_twoEsc 't' '\t' (by decide) _ _ _ IH
    by_cases hc : c.toNat < 32
    · have hv : Nat.isValidChar c.toNat := char_toNat_isValidChar c
      have := parseStrBody_hexEsc c.toNat hv (by omega) _ _ _ IH
      rw [Char.ofNat_toNat] at this
      simpa [escapeChar, hq, hb, hn, hr, ht, hc] using this
    by_cases hlt : c = '<'
    · subst hlt
      have := parseStrBody_hexEsc 60 (by norm_num [Nat.isValidChar]) (by norm_num) _ _ _ IH
      have hch : Char.ofNat 60 = '<' := by decide
      rw [hch] at this
      simpa [escapeChar] using this
    by_cases hgt : c = '>'
    · subst hgt
      have := parseStrBody_hexEsc 62 (by norm_num [Nat.isValidChar]) (by norm_num) _ _ _ IH
      have hch : Char.ofNat 62 = '>' := by decide
      rw [hch] at this
      simpa [escapeChar] using this
    by_cases ha : c = '&'
    · subst ha
      have := parseStrBody_hexEsc 38 (by norm_num [Nat.isValidChar]) (by norm_num) _ _ _ IH
      have hch : Char.ofNat 38 = '&' := by decide
      rw [hch] at this
      simpa [escapeChar] using this
    by_cases hl1 : c.toNat = 8232
    · have := parseStrBody_hexEsc 8232 (by norm_num [Nat.isValidChar]) (by norm_num) _ _ _ IH
      rw [← hl1, Char.ofNat_toNat] at this
      simpa [escapeChar, hq, hb, hn, hr, ht, hc, hlt, hgt, ha, hl1] using this
    by_cases hl2 : c.toNat = 8233
    · have := parseStrBody_hexEsc 8233 (by norm_num [Nat.isValidChar]) (by norm_num) _ _ _ IH
      rw [← hl2, Char.ofNat_toNat] at this
      simpa [escapeChar, hq, hb, hn, hr, ht, hc, hlt, hgt, ha, hl1, hl2] using this
    · have := parseStrBody_plain c hq hb hc _ _ _ IH
      simpa [escapeChar, hq, hb, hn, hr, ht, hc, hlt, hgt, ha, hl1, hl2] using this

/-- Round-trip of a quoted string followed by anything. -/
theorem parseJStr_quote (s rest : GoStr) :
    parseJStr (quoteStr s ++ rest) = some (s, rest) := by
  show parseJStr (('"' :: (escapeStr s ++ ['"'])) ++ rest) = _
  simp only [List.cons_append, List.append_assoc, List.nil_append]
  simpa [parseJStr] using parseStrBody_escape s rest

theorem skipWs_ws (c : Char) (s : GoStr) (h : isJsonWs c = true) :
    skipWs (c :: s) = skipWs s := by
  simp [skipWs, h]

theorem skipWs_not_ws (c : Char) (s : GoStr) (h : isJsonWs c = false) :
    skipWs (c :: s) = c :: s := by
  simp [skipWs, h]

theorem skipWs_space (s : GoStr) : skipWs (' ' :: s) = skipWs s :=
  skipWs_ws _ _ (by decide)

theorem skipWs_newline (s : GoStr) : skipWs ('\n' :: s) = skipWs s :=
  skipWs_ws _ _ (by decide)

theorem skipWs_colon (s : GoStr) : skipWs (':' :: s) = ':' :: s :=
  skipWs_not_ws _ _ (by decide)

theorem skipWs_comma (s : GoStr) : skipWs (',' :: s) = ',' :: s :=
  skipWs_not_ws _ _ (by decide)

theorem skipWs_rbrace (s : GoStr) : skipWs ('}' :: s) = '}' :: s :=
  skipWs_not_ws _ _ (by decide)

theorem skipWs_lbrace (s : GoStr) : skipWs ('{' :: s) = '{' :: s :=
  skipWs_not_ws _ _ (by decide)

theorem skipWs_quote (s r : GoStr) : skipWs (quoteStr s ++ r) = quoteStr s ++ r := by
  show skipWs (('"' :: (escapeStr s ++ ['"'])) ++ r) = _
  rw [List.cons_append]
  exact skipWs_not_ws _ _ (by decide)

theorem parseMembers_ws (fuel : Nat) (c : Char) (s : GoStr) (h : isJsonWs c = true) :
    parseMembers fuel (c :: s) = parseMembers fuel s := by
  cases fuel with
  | zero => rfl
  | succ f => rw [parseMembers, parseMembers, skipWs_ws c s h]

theorem encodeEntries_single (k v : GoStr) : encodeEntries [(k, v)] = encodeEntry k v := rfl

theorem encodeEntries_cons (k v : GoStr) (kv2 : GoStr × GoStr) (ps : Mapping) :
    encodeEntries ((k, v) :: kv2 :: ps) =
      encodeEntry k v ++ ',' :: '\n' :: encodeEntries (kv2 :: ps) := rfl

/-- An encoded member line is at least one rune long. -/
theorem encodeEntry_length_pos (k v : GoStr) : 1 ≤ (encodeEntry k v).length := by
  simp [encodeEntry]

theorem encodeEntries_length (ps : Mapping) : ps.length ≤ (encodeEntries ps).length := by
  induction ps with
  | nil => simp [encodeEntries]
  | cons kv ps IH =>
    obtain ⟨k, v⟩ := kv
    cases ps with
    | nil =>
      have := encodeEntry_length_pos k v
      rw [encodeEntries_single]
      simpa using this
    | cons kv2 ps2 =>
      have h1 := encodeEntry_length_pos k v
      rw [encodeEntries_cons]
      simp only [List.length_append, List.length_cons]
      simp only [List.length_cons] at IH
      omega

/-- Round-trip of the member lines: parsing the encoded members of a
non-empty mapping, followed by the closing newline and brace, yields
exactly those members. -/
theorem parseMembers_encode (ps : Mapping) (kv : GoStr × GoStr) (rest : GoStr) :
    ∀ fuel, ps.length < fuel →
    parseMembers fuel (encodeEntries (kv :: ps) ++ '\n' :: '}' :: rest) =
      some (kv :: ps, rest) := by
  induction ps generalizing kv rest with
  | nil =>
    intro fuel hf
    obtain ⟨k, v⟩ := kv
    cases fuel with
    | zero => omega
    | succ f =>
      rw [parseMembers, encodeEntries_single]
      simp only [encodeEntry, List.cons_append, List.append_assoc, skipWs_space,
        skipWs_newline, skipWs_colon, skipWs_quote, parseJStr_quote, skipWs_rbrace]
  | cons kv2 ps2 IH =>
    intro fuel hf
    obtain ⟨k, v⟩ := kv
    cases fuel with
    | zero => omega
    | succ f =>
      have hstep : parseMembers f ('\n' :: (encodeEntries (kv2 :: ps2) ++ '\n' :: '}' :: rest)) =
          some (kv2 :: ps2, rest) := by
        rw [parseMembers_ws _ _ _ (by decide)]
        exact IH kv2 rest f (by simpa using Nat.lt_of_succ_lt_succ hf)
      rw [parseMembers, encodeEntries_cons]
      simp only [encodeEntry, List.cons_append, List.append_assoc, skipWs_space,
        skipWs_newline, skipWs_colon, skipWs_quote, parseJStr_quote, skipWs_comma, hstep]

/-- Round-trip of the snapshot: parsing the bytes the encoder writes
for `m` yields exactly the members of `m`, in order. -/
theorem parseSnapshot_encodeSnapshot (m : Mapping) :
    parseSnapshot (encodeSnapshot m) = some m := by
  cases m with
  | nil => rfl
  | cons kv ps =>
    obtain ⟨k, v⟩ := kv
    have henc : encodeSnapshot ((k, v) :: ps) =
        '{' :: '\n' :: (encodeEntries ((k, v) :: ps) ++ '\n' :: '}' :: '\n' :: []) := rfl
    have hlen : ps.length <
        ('\n' :: (encodeEntries ((k, v) :: ps) ++ '\n' :: '}' :: '\n' :: [])).length + 1 := by
      have := encodeEntries_length ((k, v) :: ps)
      simp only [List.length_cons, List.length_append] at this ⊢
      omega
    have hparse := parseMembers_encode ps (k, v) ('\n' :: [])
      (('\n' :: (encodeEntries ((k, v) :: ps) ++ '\n' :: '}' :: '\n' :: [])).length + 1) hlen
    have hmem : parseMembers
        (('\n' :: (encodeEntries ((k, v) :: ps) ++ '\n' :: '}' :: '\n' :: [])).length + 1)
        ('\n' :: (encodeEntries ((k, v) :: ps) ++ '\n' :: '}' :: '\n' :: [])) =
        some ((k, v) :: ps, '\n' :: []) := by
      rw [parseMembers_ws _ _ _ (by decide)]
      exact hparse
    have hskip : ∃ Y, skipWs (encodeEntries ((k, v) :: ps) ++ '\n' :: '}' :: '\n' :: []) =
        '"' :: Y := by
      cases ps with
      | nil =>
        rw [encodeEntries_single]
        simp only [encodeEntry, quoteStr, List.cons_append, List.append_assoc,
          skipWs_space]
        exact ⟨_, rfl⟩
      | cons kv2 ps2 =>
        rw [encodeEntries_cons]
        simp only [encodeEntry, quoteStr, List.cons_append, List.append_assoc,
          skipWs_space]
        exact ⟨_, rfl⟩
    obtain ⟨Y, hY⟩ := hskip
    rw [henc]
    simp only [parseSnapshot, skipWs_lbrace, skipWs_newline, hY, hmem]
    split
    · next heq => simp at heq
    · rfl

/-! ## Lemmas: Go map semantics -/

theorem mapGet_mapAssign_self (m : Mapping) (k v : GoStr) :
    mapGet (mapAssign m k v) k = some v := by
  induction m with
  | nil => simp [mapAssign, mapGet]
  | cons kv rest IH =>
    obtain ⟨k', v'⟩ := kv
    by_cases h : k' = k
    · subst h
      simp [mapAssign, mapGet]
    · simp [mapAssign, mapGet, h, IH]

theorem mapGet_mapAssign_other (m : Mapping) (k v k' : GoStr) (h : k ≠ k') :
    mapGet (mapAssign m k v) k' = mapGet m k' := by
  induction m with
  | nil => simp [mapAssign, mapGet, h]
  | cons kv rest IH =>
    obtain ⟨k0, v0⟩ := kv
    by_cases h0 : k0 = k
    · subst h0
      simp [mapAssign, mapGet, h, IH]
    · simp only [mapAssign, if_neg h0]
      by_cases h1 : k0 = k'
      · simp [mapGet, h1]
      · simp [mapGet, h1, IH]

theorem mapGet_none_not_mem (m : Mapping) (k : GoStr) (h : mapGet m k = none) :
    k ∉ mapKeys m := by
  induction m with
  | nil => simp [mapKeys]
  | cons kv rest IH =>
    obtain ⟨k', v'⟩ := kv
    by_cases hk : k' = k
    · subst hk
      simp [mapGet] at h
    · simp only [mapGet, if_neg hk] at h
      simp only [mapKeys, List.map_cons, List.mem_cons, not_or]
      exact ⟨fun hc => hk hc.symm, IH h⟩

theorem mapAssign_of_get_none (m : Mapping) (k v : GoStr) (h : mapGet m k = none) :
    mapAssign m k v = m ++ [(k, v)] := by
  induction m with
  | nil => simp [mapAssign]
  | cons kv rest IH =>
    obtain ⟨k', v'⟩ := kv
    by_cases hk : k' = k
    · subst hk
      simp [mapGet] at h
    · simp only [mapGet, if_neg hk] at h
      simp [mapAssign, hk, IH h]

theorem mapKeys_append (m1 m2 : Mapping) :
    mapKeys (m1 ++ m2) = mapKeys m1 ++ mapKeys m2 := by
  simp [mapKeys]

theorem mapGet_eq_none_of_not_mem (m : Mapping) (k : GoStr) (h : k ∉ mapKeys m) :
    mapGet m k = none := by
  induction m with
  | nil => rfl
  | cons kv rest IH =>
    obtain ⟨k0, v0⟩ := kv
    have hne : k0 ≠ k := by
      intro hc
      exact h (by simp [mapKeys, hc])
    simp only [mapGet, if_neg hne]
    exact IH (by
      intro hc
      exact h (by simp [mapKeys] at hc ⊢; exact Or.inr hc))

/-- Go's `Decode` assignment loop rebuilds exactly the parsed members
when their keys are distinct and fresh relative to the accumulator. -/
theorem decodeInto_append (ps : Mapping) :
    ∀ acc : Mapping, (mapKeys acc ++ mapKeys ps).Nodup →
    decodeInto acc ps = acc ++ ps := by
  induction ps with
  | nil => intro acc _; simp [decodeInto]
  | cons kv rest IH =>
    intro acc hnd
    obtain ⟨k, v⟩ := kv
    have hk : k ∉ mapKeys acc := by
      intro hc
      have := List.disjoint_of_nodup_append hnd
      exact this hc (by simp [mapKeys])
    have hget : mapGet acc k = none := mapGet_eq_none_of_not_mem acc k hk
    show decodeInto (mapAssign acc k v) rest = _
    rw [mapAssign_of_get_none acc k v hget]
    have hnd' : (mapKeys (acc ++ [(k, v)]) ++ mapKeys rest).Nodup := by
      rw [mapKeys_append, List.append_assoc]
      simpa [mapKeys] using hnd
    rw [IH (acc ++ [(k, v)]) hnd']
    simp

/-- `decodeInto` into the empty map is the identity on member lists
with distinct keys. -/
theorem decodeInto_nil (ps : Mapping) (h : (mapKeys ps).Nodup) :
    decodeInto [] ps = ps := by
  have := decodeInto_append ps [] (by simpa [mapKeys] using h)
  simpa using this

/-! ## Lemmas: save and the file system -/

theorem tmpFile_ne_dbFile : tmpFile ≠ dbFile := by decide

theorem dbFile_ne_tmpFile : dbFile ≠ tmpFile := fun h => tmpFile_ne_dbFile h.symm

theorem setFile_same (fs : FS) (n d : GoStr) : setFile fs n d n = some d := by
  simp [setFile]

theorem setFile_other (fs : FS) (n d n' : GoStr) (h : n' ≠ n) :
    setFile fs n d n' = fs n' := by
  simp [setFile, h]

/-- On success, `save` leaves the encoded snapshot at `dbFile`. -/
theorem save_ok_db (env : SaveEnv) (fs : FS) (m : Mapping)
    (h : (save env fs m).1 = .ok ()) :
    (save env fs m).2 dbFile = some (encodeSnapshot m) := by
  obtain ⟨cOk, wOk, rOk, fd⟩ := env
  cases cOk <;> cases wOk <;> cases rOk <;>
    simp_all [save, renameFile, setFile, dbFile_ne_tmpFile]

/-- `save` only ever touches `dbFile` by the final rename: every state
in its trace holds either the old contents or, after a fully
successful run, the new snapshot. -/
theorem saveTrace_db (env : SaveEnv) (fs : FS) (m : Mapping) :
    ∀ g ∈ saveTrace env fs m,
      g dbFile = fs dbFile ∨
      ((save env fs m).1 = .ok () ∧ g dbFile = some (encodeSnapshot m)) := by
  intro g hg
  obtain ⟨cOk, wOk, rOk, fd⟩ := env
  cases cOk <;> cases wOk <;> cases rOk <;>
    simp only [saveTrace, save, Bool.true_eq_false,
      if_true, if_false, List.mem_cons, List.mem_singleton, List.not_mem_nil] at hg ⊢ <;>
    rcases hg with hg | hg <;>
    try rcases hg with hg | hg <;>
    try rcases hg with hg | hg
  all_goals try subst hg
  all_goals try simp_all [setFile, renameFile, dbFile_ne_tmpFile]

/-- A failure of `os.Create` or of the encoder's write surfaces the
error and leaves `dbFile` untouched (the rename never runs). -/
theorem save_prefail_db (env : SaveEnv) (fs : FS) (m : Mapping)
    (h : env.createOk = false ∨ env.writeOk = false) :
    (save env fs m).1 ≠ .ok () ∧ (save env fs m).2 dbFile = fs dbFile := by
  obtain ⟨cOk, wOk, rOk, fd⟩ := env
  rcases h with h | h
  · simp only at h
    subst h
    simp [save, setFile, dbFile_ne_tmpFile]
  · simp only at h
    subst h
    cases cOk <;> simp [save, setFile, dbFile_ne_tmpFile]

/-- The final file system of `save` is the last state of its trace. -/
theorem save_snd_mem_trace (env : SaveEnv) (fs : FS) (m : Mapping) :
    (save env fs m).2 ∈ saveTrace env fs m := by
  obtain ⟨cOk, wOk, rOk, fd⟩ := env
  cases cOk <;> cases wOk <;> cases rOk <;> simp [save, saveTrace]

theorem mapKeys_mapAssign_of_get_none (m : Mapping) (k v : GoStr)
    (h : mapGet m k = none) :
    mapKeys (mapAssign m k v) = mapKeys m ++ [k] := by
  rw [mapAssign_of_get_none m k v h, mapKeys_append]
  rfl

theorem nodup_mapKeys_mapAssign (m : Mapping) (k v : GoStr)
    (hnd : (mapKeys m).Nodup) (h : mapGet m k = none) :
    (mapKeys (mapAssign m k v)).Nodup := by
  rw [mapKeys_mapAssign_of_get_none m k v h, List.nodup_append]
  refine ⟨hnd, List.nodup_singleton k, ?_⟩
  intro a ha hb
  simp only [List.mem_singleton] at hb
  subst hb
  exact mapGet_none_not_mem m a h ha

/-! ## Lemmas: shorten -/

theorem generateCode_length (σ : Nat → Fin 62) (k : Nat) :
    (generateCode σ k).length = 6 := by
  simp [generateCode, codeLength]

theorem generateCode_mem_letters (σ : Nat → Fin 62) (k : Nat) :
    ∀ c ∈ generateCode σ k, c ∈ letters := by
  intro c hc
  simp only [generateCode, List.mem_map] at hc
  obtain ⟨j, _, rfl⟩ := hc
  exact letters.get_mem _ _

/-- Anatomy of a finished `shorten` call: some freshly generated code
was inserted for `u`, `save` ran on the grown map and decided the
result, and the map retains the insertion in either case. -/
theorem shortenLoop_spec (σ : Nat → Fin 62) (env : SaveEnv) (u : GoStr) :
    ∀ fuel k m fs res m' fs',
    shortenLoop σ env u fuel k m fs = some (res, m', fs') →
    ∃ j, mapGet m (generateCode σ j) = none ∧
      m' = mapAssign m (generateCode σ j) u ∧
      fs' = (save env fs m').2 ∧
      ((res = .ok (baseURL ++ generateCode σ j) ∧ (save env fs m').1 = .ok ()) ∨
        (∃ e, res = .error e ∧ (save env fs m').1 = .error e)) := by
  intro fuel
  induction fuel with
  | zero => intro k m fs res m' fs' h; exact absurd h (by simp [shortenLoop])
  | succ f IH =>
    intro k m fs res m' fs' h
    rw [shortenLoop] at h
    cases hget : mapGet m (generateCode σ k) with
    | some w =>
      simp only [hget] at h
      exact IH (k + codeLength) m fs res m' fs' h
    | none =>
      simp only [hget] at h
      cases hsave : save env fs (mapAssign m (generateCode σ k) u) with
      | mk r fs2 =>
        simp only [hsave] at h
        cases r with
        | error e =>
          simp only [Option.some.injEq, Prod.mk.injEq] at h
          obtain ⟨hres, hm, hfs⟩ := h
          refine ⟨k, hget, hm.symm, ?_, Or.inr ⟨e, hres.symm, ?_⟩⟩
          · rw [← hm, hsave]; exact hfs.symm
          · rw [← hm, hsave]
        | ok w =>
          simp only [Option.some.injEq, Prod.mk.injEq] at h
          obtain ⟨hres, hm, hfs⟩ := h
          refine ⟨k, hget, hm.symm, ?_, Or.inl ⟨hres.symm, ?_⟩⟩
          · rw [← hm, hsave]; exact hfs.symm
          · rw [← hm, hsave]

/-- A successful `shorten u` leaves the map resolving the returned
short URL minus the base prefix back to `u` (shared helper). -/
theorem shorten_ok_resolves (σ : Nat → Fin 62) (env : SaveEnv) (u : GoStr)
    (fuel k : Nat) (m : Mapping) (fs : FS) (s : GoStr) (m' : Mapping) (fs' : FS)
    (h : shortenLoop σ env u fuel k m fs = some (.ok s, m', fs')) :
    mapGet m' (s.drop baseURL.length) = some u := by
  obtain ⟨j, hfresh, hm, _, hres⟩ :=
    shortenLoop_spec σ env u fuel k m fs (.ok s) m' fs' h
  rcases hres with ⟨hs, _⟩ | ⟨e, habs, _⟩
  · simp only [Except.ok.injEq] at hs
    subst hs
    rw [List.drop_left, hm]
    exact mapGet_mapAssign_self m _ u
  · exact absurd habs (by simp)

/-! ## The claims -/

/-- C1, counterexample: with an empty prior mapping, target `"x"` and a
failing rename, `shorten` returns the persistence error yet the
in-memory map still contains the newly generated code — the claimed
rollback does not happen. -/
theorem C1_counterexample :
    shortenRun sigma0 envRenameFail "x".data 1 0 [] fs0 =
      some (.error .renameFailed, [(code0, "x".data)]) ∧
    ¬ mapGet [(code0, "x".data)] code0 = none := by
  constructor
  · rfl
  · simp [mapGet, code0]

/-- C1, amended: if a `shorten` call returns a persistence error, the
in-memory map is NOT rolled back: it retains the newly generated code
mapped to the target, diverging from what was durably recorded. -/
theorem C1_no_rollback (σ : Nat → Fin 62) (env : SaveEnv) (u : GoStr)
    (fuel k : Nat) (m : Mapping) (fs : FS) (e : SaveErr) (m' : Mapping) (fs' : FS)
    (h : shortenLoop σ env u fuel k m fs = some (.error e, m', fs')) :
    ∃ code, mapGet m code = none ∧ m' = mapAssign m code u ∧
      mapGet m' code = some u := by
  obtain ⟨j, hfresh, hm, _, hres⟩ :=
    shortenLoop_spec σ env u fuel k m fs (.error e) m' fs' h
  exact ⟨generateCode σ j, hfresh, hm, by rw [hm]; exact mapGet_mapAssign_self m _ u⟩

/-- C1, witness for the amended claim at the counterexample's input. -/
theorem C1_no_rollback_witness :
    ∃ code, mapGet [] code = none ∧
      [(code0, "x".data)] = mapAssign [] code "x".data ∧
      mapGet [(code0, "x".data)] code = some "x".data :=
  C1_no_rollback sigma0 envRenameFail "x".data 1 0 [] fs0 .renameFailed
    [(code0, "x".data)]
    (setFile (setFile fs0 tmpFile []) tmpFile (encodeSnapshot [(code0, "x".data)]))
    (by rfl)

/-- C2: a successful `shorten u` leaves the map resolving the returned
short URL minus the base prefix back to exactly `u`. -/
theorem C2_roundtrip (σ : Nat → Fin 62) (env : SaveEnv) (u : GoStr)
    (fuel k : Nat) (m : Mapping) (fs : FS) (s : GoStr) (m' : Mapping) (fs' : FS)
    (h : shortenLoop σ env u fuel k m fs = some (.ok s, m', fs')) :
    mapGet m' (s.drop baseURL.length) = some u :=
  shorten_ok_resolves σ env u fuel k m fs s m' fs' h

/-- C2, witness: shortening `"x"` in the empty store and resolving the
returned code yields `"x"`. -/
theorem C2_roundtrip_witness :
    mapGet [(code0, "x".data)] ((baseURL ++ code0).drop baseURL.length) = some "x".data :=
  C2_roundtrip sigma0 envOK "x".data 1 0 [] fs0 (baseURL ++ code0)
    [(code0, "x".data)]
    (renameFile (setFile (setFile fs0 tmpFile []) tmpFile
      (encodeSnapshot [(code0, "x".data)])) tmpFile dbFile)
    (by rfl)

/-- C3: when `shorten` returns successfully, `dbFile` holds the encoded
snapshot of the grown mapping, a fresh store that loads those bytes
reproduces that mapping exactly, and the new code resolves to the
target. -/
theorem C3_durability (σ : Nat → Fin 62) (env : SaveEnv) (u : GoStr)
    (fuel k : Nat) (m : Mapping) (fs : FS) (s : GoStr) (m' : Mapping) (fs' : FS)
    (hnd : (mapKeys m).Nodup)
    (h : shortenLoop σ env u fuel k m fs = some (.ok s, m', fs')) :
    fs' dbFile = some (encodeSnapshot m') ∧
    load [] (.content (encodeSnapshot m')) = .ok m' ∧
    mapGet m' (s.drop baseURL.length) = some u := by
  obtain ⟨j, hfresh, hm, hfs, hres⟩ :=
    shortenLoop_spec σ env u fuel k m fs (.ok s) m' fs' h
  rcases hres with ⟨hs, hok⟩ | ⟨e, habs, _⟩
  · simp only [Except.ok.injEq] at hs
    subst hs
    have hnd' : (mapKeys m').Nodup := by
      rw [hm]; exact nodup_mapKeys_mapAssign m _ u hnd hfresh
    refine ⟨?_, ?_, ?_⟩
    · rw [hfs]; exact save_ok_db env fs m' hok
    · show load [] (.content (encodeSnapshot m')) = .ok m'
      simp only [load, parseSnapshot_encodeSnapshot m', decodeInto_nil m' hnd']
    · rw [List.drop_left, hm]
      exact mapGet_mapAssign_self m _ u
  · exact absurd habs (by simp)

/-- C3, witness at a concrete run from the empty store. -/
theorem C3_durability_witness :
    (renameFile (setFile (setFile fs0 tmpFile [])
        tmpFile (encodeSnapshot [(code0, "x".data)])) tmpFile dbFile) dbFile =
      some (encodeSnapshot [(code0, "x".data)]) ∧
    load [] (.content (encodeSnapshot [(code0, "x".data)])) = .ok [(code0, "x".data)] ∧
    mapGet [(code0, "x".data)] ((baseURL ++ code0).drop baseURL.length) = some "x".data :=
  C3_durability sigma0 envOK "x".data 1 0 [] fs0 (baseURL ++ code0)
    [(code0, "x".data)]
    (renameFile (setFile (setFile fs0 tmpFile []) tmpFile
      (encodeSnapshot [(code0, "x".data)])) tmpFile dbFile)
    (by simp [mapKeys]) (by rfl)

/-- C4, counterexample: `shorten` applied to the empty target succeeds,
allocates a code and stores the entry mapping that code to the empty
string — nothing rejects the empty input before it reaches the store. -/
theorem C4_counterexample :
    shortenRun sigma0 envOK [] 1 0 [] fs0 =
      some (.ok (baseURL ++ code0), [(code0, [])]) ∧
    mapGet [(code0, [])] code0 = some [] := by
  constructor
  · rfl
  · simp [mapGet, code0]

/-- C4, amended: neither `shorten` nor the HTTP create handler rejects
an empty target — a successful call on the empty target stores it like
any other; only the Discord bot handler refuses an empty URL (with a
usage reply, before calling `shorten`). -/
theorem C4_no_empty_check (σ : Nat → Fin 62) (env : SaveEnv)
    (fuel k : Nat) (m : Mapping) (fs : FS) (s : GoStr) (m' : Mapping) (fs' : FS)
    (h : shortenLoop σ env [] fuel k m fs = some (.ok s, m', fs')) :
    mapGet m' (s.drop baseURL.length) = some [] ∧
    shortenHandler σ env fuel k true emptyUrlBody m fs = some (.created s, m', fs') ∧
    (∀ m2 fs2, messageCreate σ env fuel k false bareCmdMsg m2 fs2 =
      some (.usageReply, m2, fs2)) := by
  refine ⟨shorten_ok_resolves σ env [] fuel k m fs s m' fs' h, ?_, ?_⟩
  · have hbody : parseSnapshot emptyUrlBody = some [("url".data, [])] := by rfl
    have hfield : urlField [("url".data, [])] = [] := by rfl
    simp only [shortenHandler, if_neg (by simp : ¬ true = false), hbody, hfield, h]
  · intro m2 fs2
    rfl

/-- C4, witness for the amended claim at the counterexample's input. -/
theorem C4_no_empty_check_witness :
    mapGet [(code0, [])] ((baseURL ++ code0).drop baseURL.length) = some [] ∧
    shortenHandler sigma0 envOK 1 0 true emptyUrlBody [] fs0 =
      some (.created (baseURL ++ code0), [(code0, [])],
        renameFile (setFile (setFile fs0 tmpFile []) tmpFile
          (encodeSnapshot [(code0, [])])) tmpFile dbFile) ∧
    (∀ m2 fs2, messageCreate sigma0 envOK 1 0 false bareCmdMsg m2 fs2 =
      some (.usageReply, m2, fs2)) :=
  C4_no_empty_check sigma0 envOK 1 0 [] fs0 (baseURL ++ code0)
    [(code0, [])]
    (renameFile (setFile (setFile fs0 tmpFile []) tmpFile
      (encodeSnapshot [(code0, [])])) tmpFile dbFile)
    (by rfl)

/-- C5: `save` writes the whole mapping, pretty-printed, to the temp
file `dbFile + ".tmp"` in the same directory, and only a fully
successful run replaces `dbFile` by rename: every state in the trace
holds either the fully-old or the fully-new snapshot at `dbFile`, the
new one only on success, and the written bytes decode back to the
entire mapping. -/
theorem C5_atomic_save (env : SaveEnv) (fs : FS) (m : Mapping) :
    tmpFile = dbFile ++ ".tmp".data ∧
    parseSnapshot (encodeSnapshot m) = some m ∧
    (∀ g ∈ saveTrace env fs m,
      g dbFile = fs dbFile ∨
      ((save env fs m).1 = .ok () ∧ g dbFile = some (encodeSnapshot m))) ∧
    ((save env fs m).1 = .ok () → (save env fs m).2 dbFile = some (encodeSnapshot m)) :=
  ⟨rfl, parseSnapshot_encodeSnapshot m, saveTrace_db env fs m, save_ok_db env fs m⟩

/-- C5, witness: a successful save over the empty disk, with its final
state drawn from the trace. -/
theorem C5_atomic_save_witness :
    parseSnapshot (encodeSnapshot demoMap) = some demoMap ∧
    ((save envOK fs0 demoMap).2 dbFile = fs0 dbFile ∨
      ((save envOK fs0 demoMap).1 = .ok () ∧
        (save envOK fs0 demoMap).2 dbFile = some (encodeSnapshot demoMap))) ∧
    (save envOK fs0 demoMap).2 dbFile = some (encodeSnapshot demoMap) :=
  ⟨(C5_atomic_save envOK fs0 demoMap).2.1,
    (C5_atomic_save envOK fs0 demoMap).2.2.1 _ (save_snd_mem_trace envOK fs0 demoMap),
    (C5_atomic_save envOK fs0 demoMap).2.2.2 (by rfl)⟩

/-- C6: every code the generator can produce has length exactly 6 and
draws only on the fixed 62-symbol alphanumeric alphabet, whatever the
random stream; consequently every key a finished `shorten` adds to the
mapping is such a code. -/
theorem C6_code_shape (σ : Nat → Fin 62) (env : SaveEnv) (u : GoStr) :
    letters.length = 62 ∧
    (∀ k, (generateCode σ k).length = 6 ∧ ∀ c ∈ generateCode σ k, c ∈ letters) ∧
    (∀ fuel k m fs res m' fs',
      shortenLoop σ env u fuel k m fs = some (res, m', fs') →
      ∀ key ∈ mapKeys m',
        key ∈ mapKeys m ∨ (key.length = 6 ∧ ∀ c ∈ key, c ∈ letters)) := by
  refine ⟨rfl, fun k => ⟨generateCode_length σ k, generateCode_mem_letters σ k⟩, ?_⟩
  intro fuel k m fs res m' fs' h key hkey
  obtain ⟨j, hfresh, hm, _, _⟩ :=
    shortenLoop_spec σ env u fuel k m fs res m' fs' h
  rw [hm, mapKeys_mapAssign_of_get_none m _ u hfresh] at hkey
  rcases List.mem_append.mp hkey with hkey | hkey
  · exact Or.inl hkey
  · simp only [List.mem_singleton] at hkey
    subst hkey
    exact Or.inr ⟨generateCode_length σ j, generateCode_mem_letters σ j⟩

/-- C6, witness: the key stored by a concrete `shorten` run is a fresh
six-letter alphabet code. -/
theorem C6_code_shape_witness :
    code0 ∈ mapKeys ([] : Mapping) ∨
      (code0.length = 6 ∧ ∀ c ∈ code0, c ∈ letters) :=
  (C6_code_shape sigma0 envOK "x".data).2.2 1 0 [] fs0
    (.ok (baseURL ++ code0)) [(code0, "x".data)]
    (renameFile (setFile (setFile fs0 tmpFile []) tmpFile
      (encodeSnapshot [(code0, "x".data)])) tmpFile dbFile)
    (by rfl) code0 (by simp [mapKeys, code0])

/-- C7: `load` on a missing snapshot file returns success and leaves
the mapping empty; it errors exactly when the file exists but cannot
be opened or its contents cannot be decoded. -/
theorem C7_load_missing :
    load [] .missing = .ok [] ∧
    (∀ r : OpenResult, (∃ e, load [] r = .error e) ↔
      (r = .openFail ∨ ∃ d, r = .content d ∧ parseSnapshot d = none)) := by
  refine ⟨rfl, ?_⟩
  intro r
  cases r with
  | missing => simp [load]
  | openFail => simp [load]
  | content d =>
    cases hp : parseSnapshot d with
    | none => simp [load, hp]
    | some ps => simp [load, hp]

/-- C8: `redirectHandler` strips the leading path separator from the
request path and looks the remainder up: it redirects (302) to the
stored target exactly when the code is present, and replies 404
exactly when it is unknown. -/
theorem C8_redirect (frag : GoStr) (m : Mapping) :
    (∀ t, redirectHandler ('/' :: frag) m = .redirect t 302 ↔ mapGet m frag = some t) ∧
    (redirectHandler ('/' :: frag) m = .notFound 404 ↔ mapGet m frag = none) := by
  have hdrop : (('/' :: frag).drop 1) = frag := rfl
  constructor
  · intro t
    cases hget : mapGet m frag <;>
      simp [redirectHandler, hdrop, hget]
  · cases hget : mapGet m frag <;>
      simp [redirectHandler, hdrop, hget]

/-- C10: when `os.Create` or the encoder's write fails, `save` returns
that error and the previously persisted `dbFile` is untouched, because
the rename only runs after the temp file is fully written and closed. -/
theorem C10_save_prefail (env : SaveEnv) (fs : FS) (m : Mapping)
    (h : env.createOk = false ∨ env.writeOk = false) :
    (∃ e, (save env fs m).1 = .error e) ∧ (save env fs m).2 dbFile = fs dbFile := by
  obtain ⟨hne, hdb⟩ := save_prefail_db env fs m h
  refine ⟨?_, hdb⟩
  cases hr : (save env fs m).1 with
  | error e => exact ⟨e, rfl⟩
  | ok w => exact absurd (by rw [hr]) hne

/-- C10, witness: a failing `os.Create` over the empty disk. -/
theorem C10_save_prefail_witness :
    (∃ e, (save envCreateFail fs0 demoMap).1 = .error e) ∧
    (save envCreateFail fs0 demoMap).2 dbFile = fs0 dbFile :=
  C10_save_prefail envCreateFail fs0 demoMap (Or.inl rfl)
